import Mathlib

/-!
Shallow embedding of `scripts/release.py`, the Aurelis release-automation
script.  Strings are lists of characters; the external world (git status
output, user answers at prompts, the current date, which commands exit
non-zero) is an explicit environment; the mutable state is the semantic
version recorded in `pyproject.toml` together with the content of
`CHANGELOG.md`; every external command invocation and every file write is
recorded in a trace of events.
-/

namespace Release

/-- Strings are modelled as lists of characters. -/
abbrev Str := List Char

/-- Coerce a Lean string literal to the character-list representation. -/
def str (s : String) : Str := s.data

/-- A semantic version: the three numeric components of `major.minor.patch`,
as managed by `poetry version`. -/
structure Version where
  major : Nat
  minor : Nat
  patch : Nat
deriving DecidableEq

/-- Strict semantic-version order: lexicographic on (major, minor, patch). -/
def semverLt (v w : Version) : Prop :=
  v.major < w.major ∨
    (v.major = w.major ∧
      (v.minor < w.minor ∨ (v.minor = w.minor ∧ v.patch < w.patch)))

instance (v w : Version) : Decidable (semverLt v w) := by
  unfold semverLt
  exact inferInstance

/-- Decimal rendering of a version: the stdout of `poetry version --short`. -/
def versionStr (v : Version) : Str :=
  Nat.toDigits 10 v.major ++ str "." ++ Nat.toDigits 10 v.minor ++ str "." ++
    Nat.toDigits 10 v.patch

/-- The whitespace characters removed by Python's `str.strip()`. -/
def isPySpace (c : Char) : Bool :=
  c == ' ' || c == '\t' || c == '\n' || c == '\x0d' || c == '\x0c' || c == '\x0b'

/-- Python's `str.strip()`: remove leading and trailing whitespace. -/
def pyStrip (s : Str) : Str :=
  ((s.dropWhile isPySpace).reverse.dropWhile isPySpace).reverse

/-- Lower-casing of one character, as Python's `str.lower()` acts on the
ASCII answers this script compares against the letter y. -/
def pyLowerChar (c : Char) : Char :=
  if 'A' ≤ c ∧ c ≤ 'Z' then Char.ofNat (c.toNat + 32) else c

/-- Python's `str.lower()` on the (ASCII) strings this script meets. -/
def pyLower (s : Str) : Str := s.map pyLowerChar

/-- `begins pat s` holds when `pat` is an initial segment of `s`. -/
def begins : Str → Str → Bool
  | [], _ => true
  | _ :: _, [] => false
  | p :: ps, c :: cs => p == c && begins ps cs

/-- Index of the first occurrence of `pat` inside `s`, if any. -/
def findSub (pat : Str) : Str → Option Nat
  | [] => if begins pat [] then some 0 else none
  | c :: t => if begins pat (c :: t) then some 0 else (findSub pat t).map (fun n => n + 1)

/-- The literal part of the changelog-header regular expression. -/
def headerPat : Str := str "# Changelog"

/-- A blank line: two consecutive newline characters. -/
def nl2 : Str := str "\n\n"

/-- Scan of `re.search` for the pattern `# Changelog.*?\n\n` under DOTALL:
at each candidate start the 11-character literal header must match and the
non-greedy tail extends to the nearest following `\n\n`; the whole search
keeps the leftmost start that admits a match.  Returns the end index of the
match relative to the scanned suffix. -/
def headerEndAux : Str → Option Nat
  | [] => none
  | c :: t =>
    match (if begins headerPat (c :: t) then
             (findSub nl2 ((c :: t).drop 11)).map (fun k => 11 + k + 2)
           else none) with
    | some e => some e
    | none => (headerEndAux t).map (fun n => n + 1)

/-- End position of the first match of `# Changelog.*?\n\n` (DOTALL) in
`content`; `none` when the pattern does not occur. -/
def findHeaderEnd (content : Str) : Option Nat := headerEndAux content

/-- The templated section inserted for a new version. -/
def newSection (version today : Str) : Str :=
  str "## [" ++ version ++ str "] - " ++ today ++
    str "\n\n### Added\n- \n\n### Changed\n- \n\n### Fixed\n- \n\n"

/-- The content written when `CHANGELOG.md` does not exist yet. -/
def defaultChangelog : Str :=
  str "# Changelog\n\nAll notable changes to this project will be documented in this file.\n\n"

/-- Result of `update_changelog`: the changelog file content afterwards, the
returned boolean, and the sequence of contents written to the file. -/
structure ChangelogResult where
  file : Option Str
  success : Bool
  writes : List Str
deriving DecidableEq

/-- `update_changelog(version)`: create the file with the default header when
it is missing, read it, and insert the templated section right after the end
of the first match of the header pattern; when the pattern is absent, report
failure without writing. -/
def update_changelog (version today : Str) (file : Option Str) : ChangelogResult :=
  let content : Str := match file with
    | none => defaultChangelog
    | some c => c
  let created : List Str := match file with
    | none => [defaultChangelog]
    | some _ => []
  match findHeaderEnd content with
  | some p =>
    let nc := content.take p ++ newSection version today ++ content.drop p
    ⟨some nc, true, created ++ [nc]⟩
  | none => ⟨some content, false, created⟩

/-- An event of a run: an external command invocation or a file write. -/
inductive Event where
  | run : Str → Event
  | write : Str → Str → Event
deriving DecidableEq

/-- The external world of one invocation: whether the working directory holds
the expected entries, the stdout of `git status --porcelain`, the current
date already rendered by strftime as YYYY-MM-DD, the answers typed at the two
confirmation prompts, and the set of shell commands that exit non-zero. -/
structure Env where
  hasAurelis : Bool
  hasPyproject : Bool
  porcelain : Str
  today : Str
  pushAnswer : Str
  releaseAnswer : Str
  fails : List Str
deriving DecidableEq

/-- The mutable state the script touches: the version in `pyproject.toml`
(owned by poetry) and the content of `CHANGELOG.md` (absent or present). -/
structure St where
  version : Version
  changelog : Option Str
deriving DecidableEq

/-- How one step of the script ends: normally, by `sys.exit(message)`, or by
an uncaught `CalledProcessError` from the named command. -/
inductive StepR (α : Type) where
  | ok : α → StepR α
  | exited : Str → StepR α
  | fatal : Str → StepR α
deriving DecidableEq

/-- A completed step: its result, the state it leaves, and its event trace. -/
structure Comp (α : Type) where
  res : StepR α
  st : St
  tr : List Event

/-- Sequential composition: the continuation runs only on normal completion;
`sys.exit` and uncaught subprocess errors propagate, keeping the trace. -/
def andThen {α β : Type} (x : Comp α) (f : α → St → Comp β) : Comp β :=
  match x.res with
  | .ok a => let y := f a x.st; ⟨y.res, y.st, x.tr ++ y.tr⟩
  | .exited m => ⟨.exited m, x.st, x.tr⟩
  | .fatal c => ⟨.fatal c, x.st, x.tr⟩

/-- The shell command exits with a non-zero status in this environment. -/
def commandFails (env : Env) (cmd : Str) : Prop := cmd ∈ env.fails

instance (env : Env) (cmd : Str) : Decidable (commandFails env cmd) := by
  unfold commandFails
  exact inferInstance

def gitStatusCmd : Str := str "git status --porcelain"
def poetryShortCmd : Str := str "poetry version --short"
def poetryBumpCmd (level : Str) : Str := str "poetry version " ++ level
def gitAddCmd : Str := str "git add pyproject.toml CHANGELOG.md"
def gitCommitCmd (v : Str) : Str :=
  str "git commit -m \"Release version " ++ v ++ str "\""
def gitTagCmd (v : Str) : Str :=
  str "git tag -a v" ++ v ++ str " -m \"Version " ++ v ++ str "\""
def gitPushCmd : Str := str "git push"
def gitPushTagsCmd : Str := str "git push --tags"
def whichGhCmd : Str := str "which gh"
def ghReleaseCmd (v : Str) : Str :=
  str "gh release create v" ++ v ++ str " --title \"Aurelis " ++ v ++ str "\" --notes-file -"

def changelogPath : Str := str "CHANGELOG.md"

def dirErrMsg : Str := str "Error: Please run this script from the project root directory"
def dirtyMsg : Str :=
  str "Error: Git working directory is not clean. Please commit or stash changes first."
def invalidLevelMsg (level : Str) : Str :=
  str "Error: Invalid version level \x27" ++ level ++
    str "\x27. Use \x27patch\x27, \x27minor\x27, or \x27major\x27"

/-- `run_command(cmd)` with `check=True`: the command is executed (traced) and
a non-zero exit raises `CalledProcessError`, uncaught by the script. -/
def runChecked (env : Env) (st : St) (cmd : Str) : Comp Unit :=
  if commandFails env cmd then ⟨.fatal cmd, st, [.run cmd]⟩
  else ⟨.ok (), st, [.run cmd]⟩

/-- `check_git_clean()`: run `git status --porcelain` and `sys.exit` when its
stripped stdout is non-empty. -/
def check_git_clean (env : Env) (st : St) : Comp Unit :=
  andThen (runChecked env st gitStatusCmd) fun _ st1 =>
    if pyStrip env.porcelain ≠ [] then ⟨.exited dirtyMsg, st1, []⟩
    else ⟨.ok (), st1, []⟩

/-- `get_current_version()`: run `poetry version --short` and return its
stripped stdout, the rendering of the current version. -/
def get_current_version (env : Env) (st : St) : Comp Str :=
  andThen (runChecked env st poetryShortCmd) fun _ st1 =>
    ⟨.ok (pyStrip (versionStr st1.version)), st1, []⟩

/-- The requested bump level is one of the fixed enumerated set. -/
def validLevel (level : Str) : Prop :=
  level = str "patch" ∨ level = str "minor" ∨ level = str "major"

instance (level : Str) : Decidable (validLevel level) := by
  unfold validLevel
  exact inferInstance

/-- Modelled from the spec: the semantic-version bump that the external
dependency-management tool performs on `poetry version <level>` (the tool is
not part of this repository).  The component named by the bump level is
incremented and the lower components are reset. -/
def poetryBump (level : Str) (v : Version) : Version :=
  if level = str "patch" then ⟨v.major, v.minor, v.patch + 1⟩
  else if level = str "minor" then ⟨v.major, v.minor + 1, 0⟩
  else if level = str "major" then ⟨v.major + 1, 0, 0⟩
  else v

/-- `bump_version(level)`: reject an invalid level, read the current version,
run `poetry version <level>` (which mutates the stored version), and read
back the new version, which is returned. -/
def bump_version (env : Env) (st : St) (level : Str) : Comp Str :=
  if ¬ validLevel level then ⟨.exited (invalidLevelMsg level), st, []⟩
  else
    andThen (get_current_version env st) fun _ st1 =>
    andThen (runChecked env st1 (poetryBumpCmd level)) fun _ st2 =>
    get_current_version env ⟨poetryBump level st2.version, st2.changelog⟩

/-- `update_changelog(version)` as a step of the workflow: the pure edit of
`update_changelog` applied to the current file state, with each performed
write traced. -/
def update_changelog_step (env : Env) (st : St) (version : Str) : Comp Bool :=
  let r := update_changelog version env.today st.changelog
  ⟨.ok r.success, ⟨st.version, r.file⟩, r.writes.map (fun c => .write changelogPath c)⟩

/-- `create_git_tag(version)`: stage the two files, commit, and tag. -/
def create_git_tag (env : Env) (st : St) (version : Str) : Comp Unit :=
  andThen (runChecked env st gitAddCmd) fun _ st1 =>
  andThen (runChecked env st1 (gitCommitCmd version)) fun _ st2 =>
  runChecked env st2 (gitTagCmd version)

/-- `push_to_github()`: unless the prompt answer lower-cases to y, do
nothing; otherwise push commits and tags. -/
def push_to_github (env : Env) (st : St) : Comp Unit :=
  if pyLower env.pushAnswer ≠ str "y" then ⟨.ok (), st, []⟩
  else
    andThen (runChecked env st gitPushCmd) fun _ st1 =>
    runChecked env st1 gitPushTagsCmd

/-- `create_github_release(version)`: probe `which gh` with `check=False`
(its failure only skips the release), then unless the prompt answer
lower-cases to y do nothing more; otherwise run `gh release create`. -/
def create_github_release (env : Env) (st : St) (version : Str) : Comp Unit :=
  if commandFails env whichGhCmd then ⟨.ok (), st, [.run whichGhCmd]⟩
  else if pyLower env.releaseAnswer ≠ str "y" then ⟨.ok (), st, [.run whichGhCmd]⟩
  else
    andThen (⟨.ok (), st, [.run whichGhCmd]⟩ : Comp Unit) fun _ st1 =>
    runChecked env st1 (ghReleaseCmd version)

/-- The body of `main()` after argument parsing: optional clean check, bump,
changelog update, pause for the manual edit, commit and tag, and the two
optional remote operations. -/
def main_body (env : Env) (st : St) (level : Str) (skipChecks : Bool) : Comp Unit :=
  andThen (if skipChecks then ⟨.ok (), st, []⟩ else check_git_clean env st) fun _ st1 =>
  andThen (bump_version env st1 level) fun newV st2 =>
  andThen (update_changelog_step env st2 newV) fun _ st3 =>
  andThen (create_git_tag env st3 newV) fun _ st4 =>
  andThen (push_to_github env st4) fun _ st5 =>
  create_github_release env st5 newV

/-- How a whole invocation of the script ends: normal completion, rejection
of the arguments by argparse, `sys.exit(message)`, or an uncaught
`CalledProcessError` from the named command. -/
inductive Outcome where
  | completed
  | argError
  | exited : Str → Outcome
  | fatal : Str → Outcome
deriving DecidableEq

/-- A whole invocation: its outcome, the final state, and the event trace. -/
structure RunResult where
  outcome : Outcome
  final : St
  trace : List Event
deriving DecidableEq

def toOutcome {α : Type} : StepR α → Outcome
  | .ok _ => .completed
  | .exited m => .exited m
  | .fatal c => .fatal c

/-- One invocation of `scripts/release.py level [--skip-checks]`: the
module-level directory check runs first, then argparse validates the level
against its fixed choices, then `main()`'s body runs. -/
def script (env : Env) (st : St) (level : Str) (skipChecks : Bool) : RunResult :=
  if ¬ (env.hasAurelis ∧ env.hasPyproject) then ⟨.exited dirErrMsg, st, []⟩
  else if ¬ validLevel level then ⟨.argError, st, []⟩
  else
    ⟨toOutcome (main_body env st level skipChecks).res,
     (main_body env st level skipChecks).st,
     (main_body env st level skipChecks).tr⟩

/-! ### Sample environments used by concrete witnesses -/

/-- A benign environment: correct directory, clean tree, every command
succeeding, both prompts declined. -/
def envOk : Env :=
  { hasAurelis := true, hasPyproject := true, porcelain := [],
    today := str "2025-01-02", pushAnswer := str "n",
    releaseAnswer := str "N", fails := [] }

/-- A small initial state: version 0.1.0 and a changelog with the header. -/
def stOk : St := ⟨⟨0, 1, 0⟩, some (str "# Changelog\n\nold\n")⟩

/-- A clean environment except that `git status --porcelain` prints a single
newline: non-empty output that strips to empty. -/
def envWsPorcelain : Env := { envOk with porcelain := str "\n" }

/-- An environment whose working tree is genuinely dirty. -/
def envDirty : Env := { envOk with porcelain := str " M aurelis/core.py\n" }

/-- An environment missing the `aurelis` directory entry. -/
def envNoRoot : Env := { envOk with hasAurelis := false }

/-- An environment in which `which gh` exits non-zero (GitHub CLI missing)
and the push prompt is declined. -/
def envGhMissing : Env := { envOk with releaseAnswer := str "y", fails := [str "which gh"] }

/-- An environment in which `git status --porcelain` itself exits non-zero. -/
def envGitFail : Env := { envOk with fails := [str "git status --porcelain"] }

/-! ### Predicates over steps and traces -/

/-- Every event in the trace of a completed step satisfies `P`. -/
def TrAll {α : Type} (P : Event → Prop) (x : Comp α) : Prop :=
  ∀ e ∈ x.tr, P e

/-- The event is not the git-status probe. -/
def notGit (e : Event) : Prop := e ≠ Event.run gitStatusCmd

/-- Every message with which the step can `sys.exit` satisfies `M`. -/
def ExitedIn {α : Type} (M : Str → Prop) (x : Comp α) : Prop :=
  ∀ m, x.res = .exited m → M m

/-- Fatal propagation: whenever a command other than the unchecked `which gh`
probe appears in the step's trace and fails in this environment, the step's
result is the corresponding uncaught subprocess error. -/
def FatalSound {α : Type} (env : Env) (x : Comp α) : Prop :=
  ∀ cmd : Str, cmd ≠ whichGhCmd → Event.run cmd ∈ x.tr → commandFails env cmd →
    x.res = .fatal cmd

example : findHeaderEnd (str "# Changelog\n\nBody") = some 13 := by decide
example : findHeaderEnd (str "# Changelog\nno blank line") = none := by decide
example : findHeaderEnd (str "intro\n# Changelog\n\nBody") = some 19 := by decide
example : findHeaderEnd defaultChangelog = some 13 := by decide

/-! ### Helper lemmas -/

theorem begins_length : ∀ pat s : Str, begins pat s = true → pat.length ≤ s.length
  | [], _, _ => Nat.zero_le _
  | _ :: _, [], h => by simp [begins] at h
  | p :: ps, c :: cs, h => by
    have h' : begins ps cs = true := by
      simp [begins] at h
      exact h.2
    simpa using Nat.succ_le_succ (begins_length ps cs h')

theorem findSub_le (pat : Str) :
    ∀ (s : Str) (k : Nat), findSub pat s = some k → k + pat.length ≤ s.length := by
  intro s
  induction s with
  | nil =>
    intro k h
    unfold findSub at h
    split at h
    · cases h
      simpa using begins_length pat [] (by assumption)
    · cases h
  | cons c t ih =>
    intro k h
    unfold findSub at h
    split at h
    · cases h
      simpa using begins_length pat (c :: t) (by assumption)
    · rcases Option.map_eq_some'.mp h with ⟨k', hk', rfl⟩
      have := ih k' hk'
      simp
      omega

theorem headerEndAux_le : ∀ (s : Str) (p : Nat), headerEndAux s = some p → p ≤ s.length := by
  intro s
  induction s with
  | nil => intro p h; cases h
  | cons c t ih =>
    intro p h
    unfold headerEndAux at h
    cases hb : begins headerPat (c :: t) with
    | false =>
      rw [hb] at h
      simp only [Bool.false_eq_true, if_false] at h
      rcases Option.map_eq_some'.mp h with ⟨p', hp', rfl⟩
      have := ih p' hp'
      simp
      omega
    | true =>
      rw [hb] at h
      simp only [if_true] at h
      cases hf : findSub nl2 ((c :: t).drop 11) with
      | none =>
        rw [hf] at h
        simp only [Option.map_none'] at h
        rcases Option.map_eq_some'.mp h with ⟨p', hp', rfl⟩
        have := ih p' hp'
        simp
        omega
      | some k =>
        rw [hf] at h
        simp only [Option.map_some'] at h
        cases h
        have h1 : k + nl2.length ≤ ((c :: t).drop 11).length := findSub_le nl2 _ k hf
        have h2 : headerPat.length ≤ (c :: t).length := begins_length _ _ hb
        have h3 : nl2.length = 2 := by decide
        have h4 : headerPat.length = 11 := by decide
        rw [List.length_drop] at h1
        omega

theorem findHeaderEnd_le (c : Str) (p : Nat) (h : findHeaderEnd c = some p) :
    p ≤ c.length :=
  headerEndAux_le c p h

/-! ### C1: invalid bump level is rejected before any mutation -/

/-- C1: for every invocation whose bump-level argument is not one of patch,
minor, or major, the script terminates with an error (argparse rejection, or
the directory error which precedes it) with an empty event trace — so the
version is not bumped, CHANGELOG.md is untouched, and no git commit or tag is
created. -/
theorem invalid_level_rejected_before_mutation (env : Env) (st : St) (level : Str)
    (skip : Bool) (h : ¬ validLevel level) :
    (script env st level skip).trace = [] ∧
    (script env st level skip).final = st ∧
    (script env st level skip).outcome ≠ .completed := by
  unfold script
  by_cases hd : env.hasAurelis ∧ env.hasPyproject
  · rw [if_neg (not_not_intro hd), if_pos h]
    exact ⟨rfl, rfl, by intro hc; cases hc⟩
  · rw [if_pos hd]
    exact ⟨rfl, rfl, by intro hc; cases hc⟩

/-- C1 witness: the level `mJr` is invalid and the script run on it mutates
nothing and does not complete. -/
theorem invalid_level_rejected_witness :
    ¬ validLevel (str "mJr") ∧
    (script envOk stOk (str "mJr") false).trace = [] ∧
    (script envOk stOk (str "mJr") false).final = stOk ∧
    (script envOk stOk (str "mJr") false).outcome ≠ .completed := by
  refine ⟨by decide, ?_⟩
  exact invalid_level_rejected_before_mutation envOk stOk (str "mJr") false (by decide)

/-! ### C3: a changelog without the header pattern is left unmodified -/

/-- C3: when the existing changelog content has no match of the header
pattern, `update_changelog` returns the content unchanged, reports failure,
and performs no write. -/
theorem changelog_no_header_unchanged (v today c : Str)
    (h : findHeaderEnd c = none) :
    update_changelog v today (some c) = ⟨some c, false, []⟩ := by
  unfold update_changelog
  simp [h]

/-- C3 witness: content holding `# Changelog` with no blank line afterwards
has no match of the pattern and is left untouched. -/
theorem changelog_no_header_unchanged_witness :
    findHeaderEnd (str "# Changelog\nno blank line") = none ∧
    update_changelog (str "1.2.3") (str "2025-03-04")
        (some (str "# Changelog\nno blank line")) =
      ⟨some (str "# Changelog\nno blank line"), false, []⟩ :=
  ⟨by decide,
   changelog_no_header_unchanged (str "1.2.3") (str "2025-03-04")
     (str "# Changelog\nno blank line") (by decide)⟩

/-! ### C4: the inserted section is exactly the fixed template -/

/-- C4: on any content matching the header pattern, the section that
`update_changelog` splices in is exactly the fixed template whose heading
line carries the new version string and the current date, and the update is
reported successful. -/
theorem changelog_section_is_template (v today c : Str) (p : Nat)
    (h : findHeaderEnd c = some p) :
    (update_changelog v today (some c)).file =
      some (c.take p ++
        (str "## [" ++ v ++ str "] - " ++ today ++
          str "\n\n### Added\n- \n\n### Changed\n- \n\n### Fixed\n- \n\n") ++
        c.drop p) ∧
    (update_changelog v today (some c)).success = true := by
  unfold update_changelog newSection
  simp [h]

/-- C4 witness: on a two-line changelog the template is inserted at
position 13 and the call succeeds. -/
theorem changelog_section_is_template_witness :
    findHeaderEnd (str "# Changelog\n\nBody") = some 13 ∧
    (update_changelog (str "2.0.0") (str "2025-06-07")
        (some (str "# Changelog\n\nBody"))).file =
      some ((str "# Changelog\n\nBody").take 13 ++
        (str "## [" ++ str "2.0.0" ++ str "] - " ++ str "2025-06-07" ++
          str "\n\n### Added\n- \n\n### Changed\n- \n\n### Fixed\n- \n\n") ++
        (str "# Changelog\n\nBody").drop 13) ∧
    (update_changelog (str "2.0.0") (str "2025-06-07")
        (some (str "# Changelog\n\nBody"))).success = true := by
  refine ⟨by decide, ?_⟩
  exact changelog_section_is_template (str "2.0.0") (str "2025-06-07")
    (str "# Changelog\n\nBody") 13 (by decide)

/-! ### C5: declining a confirmation prompt performs no remote operation -/

/-- C5: when the push-prompt answer does not lower-case to y,
`push_to_github` runs no command at all (so neither `git push` nor
`git push --tags`); when the release-prompt answer does not lower-case to y,
`create_github_release` runs only the `which gh` probe (so never
`gh release create`). -/
theorem declined_prompts_no_remote (env : Env) (st : St) (v : Str) :
    (pyLower env.pushAnswer ≠ str "y" → (push_to_github env st).tr = []) ∧
    (pyLower env.releaseAnswer ≠ str "y" →
      (create_github_release env st v).tr = [.run whichGhCmd]) := by
  constructor
  · intro h
    unfold push_to_github
    rw [if_pos h]
  · intro h
    unfold create_github_release
    simp only [if_pos h]
    split <;> rfl

/-- C5 witness: with answers `n` and `N`, neither push nor release commands
are run. -/
theorem declined_prompts_no_remote_witness :
    pyLower envOk.pushAnswer ≠ str "y" ∧
    pyLower envOk.releaseAnswer ≠ str "y" ∧
    (push_to_github envOk stOk).tr = [] ∧
    (create_github_release envOk stOk (str "0.1.1")).tr = [.run whichGhCmd] := by
  refine ⟨by decide, by decide, ?_, ?_⟩
  · exact (declined_prompts_no_remote envOk stOk (str "0.1.1")).1 (by decide)
  · exact (declined_prompts_no_remote envOk stOk (str "0.1.1")).2 (by decide)

/-! ### C10: a missing changelog is created and then updated successfully -/

/-- C10: when CHANGELOG.md does not exist, `update_changelog` first writes
the default header content; on that content the header pattern matches with
end position 13 — right after the `# Changelog` line and its blank line — so
the new section is inserted there and the call returns success: a missing
changelog never reaches the reported-failure branch. -/
theorem missing_changelog_created_and_updated (v today : Str) :
    findHeaderEnd defaultChangelog = some 13 ∧
    defaultChangelog.take 13 = str "# Changelog\n\n" ∧
    update_changelog v today none =
      ⟨some (str "# Changelog\n\n" ++ newSection v today ++ defaultChangelog.drop 13),
       true,
       [defaultChangelog,
        str "# Changelog\n\n" ++ newSection v today ++ defaultChangelog.drop 13]⟩ :=
  ⟨by decide, by decide, rfl⟩

/-! ### C6: the edit is append-only at the fixed anchor -/

/-- C6: on content matching the header pattern with match end `p`, the
written content is exactly the original with the new section inserted at
position `p`: the first `p` characters and everything after the inserted
section are byte-for-byte the original prefix and suffix. -/
theorem changelog_insert_append_only (v today c : Str) (p : Nat)
    (h : findHeaderEnd c = some p) :
    (update_changelog v today (some c)).file =
      some (c.take p ++ newSection v today ++ c.drop p) ∧
    (c.take p ++ newSection v today ++ c.drop p).take p = c.take p ∧
    (c.take p ++ newSection v today ++ c.drop p).drop (p + (newSection v today).length) =
      c.drop p := by
  have hp : p ≤ c.length := findHeaderEnd_le c p h
  have hlen : (c.take p).length = p := by
    rw [List.length_take]
    omega
  refine ⟨?_, ?_, ?_⟩
  · unfold update_changelog
    simp [h]
  · rw [List.append_assoc]
    exact List.take_left' hlen
  · refine List.drop_left' ?_
    rw [List.length_append, hlen]

/-- C6 witness: the insertion at position 13 keeps the 13-character prefix
and the suffix unchanged. -/
theorem changelog_insert_append_only_witness :
    findHeaderEnd (str "# Changelog\n\nBody") = some 13 ∧
    (update_changelog (str "3.1.4") (str "2025-09-09")
        (some (str "# Changelog\n\nBody"))).file =
      some ((str "# Changelog\n\nBody").take 13 ++
        newSection (str "3.1.4") (str "2025-09-09") ++
        (str "# Changelog\n\nBody").drop 13) ∧
    ((str "# Changelog\n\nBody").take 13 ++
        newSection (str "3.1.4") (str "2025-09-09") ++
        (str "# Changelog\n\nBody").drop 13).take 13 =
      (str "# Changelog\n\nBody").take 13 ∧
    ((str "# Changelog\n\nBody").take 13 ++
        newSection (str "3.1.4") (str "2025-09-09") ++
        (str "# Changelog\n\nBody").drop 13).drop
          (13 + (newSection (str "3.1.4") (str "2025-09-09")).length) =
      (str "# Changelog\n\nBody").drop 13 := by
  refine ⟨by decide, ?_⟩
  exact changelog_insert_append_only (str "3.1.4") (str "2025-09-09")
    (str "# Changelog\n\nBody") 13 (by decide)

/-! ### C7: the bump strictly increases the version per the requested level -/

/-- When `bump_version` completes normally, the level was valid and the
state's version has been replaced by the poetry bump of the old version. -/
theorem bump_version_ok (env : Env) (st : St) (level : Str) (v : Str)
    (h : (bump_version env st level).res = .ok v) :
    validLevel level ∧
    (bump_version env st level).st = ⟨poetryBump level st.version, st.changelog⟩ := by
  by_cases hv : validLevel level
  · refine ⟨hv, ?_⟩
    by_cases h1 : commandFails env poetryShortCmd
    · exfalso
      simp only [bump_version, get_current_version, runChecked, andThen,
        if_neg (not_not_intro hv), if_pos h1] at h
      cases h
    · by_cases h2 : commandFails env (poetryBumpCmd level)
      · exfalso
        simp only [bump_version, get_current_version, runChecked, andThen,
          if_neg (not_not_intro hv), if_neg h1, if_pos h2] at h
        cases h
      · simp only [bump_version, get_current_version, runChecked, andThen,
          if_neg (not_not_intro hv), if_neg h1, if_neg h2]
  · exfalso
    simp only [bump_version, if_pos hv] at h
    cases h

/-- C7: whenever `bump_version` completes normally, the stored version has
strictly increased in semantic-version order, and the component named by the
requested level is the one that was incremented. -/
theorem bump_version_monotonic (env : Env) (st : St) (level : Str) (v : Str)
    (h : (bump_version env st level).res = .ok v) :
    semverLt st.version (bump_version env st level).st.version ∧
    (level = str "patch" →
      (bump_version env st level).st.version =
        ⟨st.version.major, st.version.minor, st.version.patch + 1⟩) ∧
    (level = str "minor" →
      (bump_version env st level).st.version =
        ⟨st.version.major, st.version.minor + 1, 0⟩) ∧
    (level = str "major" →
      (bump_version env st level).st.version =
        ⟨st.version.major + 1, 0, 0⟩) := by
  obtain ⟨hv, hst⟩ := bump_version_ok env st level v h
  rw [hst]
  rcases hv with hl | hl | hl <;> subst hl
  · have hb : poetryBump (str "patch") st.version =
        ⟨st.version.major, st.version.minor, st.version.patch + 1⟩ := rfl
    rw [hb]
    exact ⟨Or.inr ⟨rfl, Or.inr ⟨rfl, Nat.lt_succ_self _⟩⟩, fun _ => rfl,
      fun hx => absurd hx (by decide), fun hx => absurd hx (by decide)⟩
  · have hb : poetryBump (str "minor") st.version =
        ⟨st.version.major, st.version.minor + 1, 0⟩ := rfl
    rw [hb]
    exact ⟨Or.inr ⟨rfl, Or.inl (Nat.lt_succ_self _)⟩,
      fun hx => absurd hx (by decide), fun _ => rfl,
      fun hx => absurd hx (by decide)⟩
  · have hb : poetryBump (str "major") st.version = ⟨st.version.major + 1, 0, 0⟩ := rfl
    rw [hb]
    exact ⟨Or.inl (Nat.lt_succ_self _),
      fun hx => absurd hx (by decide), fun hx => absurd hx (by decide),
      fun _ => rfl⟩

/-- C7 witness: bumping 0.1.0 at level minor completes and yields 0.2.0,
strictly above 0.1.0. -/
theorem bump_version_monotonic_witness :
    (bump_version envOk stOk (str "minor")).res = .ok (str "0.2.0") ∧
    semverLt stOk.version (bump_version envOk stOk (str "minor")).st.version ∧
    (bump_version envOk stOk (str "minor")).st.version =
      ⟨stOk.version.major, stOk.version.minor + 1, 0⟩ := by
  have h : (bump_version envOk stOk (str "minor")).res = .ok (str "0.2.0") := by decide
  have hm := bump_version_monotonic envOk stOk (str "minor") (str "0.2.0") h
  exact ⟨h, hm.1, hm.2.2.1 rfl⟩

/-! ### Trace machinery -/

theorem trAll_andThen {α β : Type} {P : Event → Prop} {x : Comp α}
    {f : α → St → Comp β} (hx : TrAll P x) (hf : ∀ a s, TrAll P (f a s)) :
    TrAll P (andThen x f) := by
  obtain ⟨r, s, t⟩ := x
  cases r with
  | ok a =>
    intro e he
    simp only [andThen, List.mem_append] at he
    rcases he with he | he
    · exact hx e he
    · exact hf a s e he
  | exited m => exact hx
  | fatal c => exact hx

theorem trAll_of_tr_nil {α : Type} {P : Event → Prop} {x : Comp α}
    (h : x.tr = []) : TrAll P x := by
  intro e he
  rw [h] at he
  cases he

theorem trAll_runChecked {P : Event → Prop} (env : Env) (st : St) (cmd : Str)
    (h : P (Event.run cmd)) : TrAll P (runChecked env st cmd) := by
  intro e he
  have he' : e = Event.run cmd := by
    unfold runChecked at he
    split at he <;> simpa using he
  rw [he']
  exact h

theorem runChecked_tr (env : Env) (st : St) (cmd : Str) :
    (runChecked env st cmd).tr = [Event.run cmd] := by
  unfold runChecked
  split <;> rfl

theorem andThen_tr_cons {α β : Type} (x : Comp α) (f : α → St → Comp β)
    (e : Event) (t : List Event) (hx : x.tr = e :: t) :
    ∃ t', (andThen x f).tr = e :: t' := by
  obtain ⟨r, s, tr⟩ := x
  cases r with
  | ok a =>
    refine ⟨t ++ (f a s).tr, ?_⟩
    simp only [andThen]
    rw [show (⟨StepR.ok a, s, tr⟩ : Comp α).tr = tr from rfl] at hx
    rw [hx]
    rfl
  | exited m => exact ⟨t, hx⟩
  | fatal c => exact ⟨t, hx⟩

theorem andThen_exited {α β : Type} (x : Comp α) (f : α → St → Comp β)
    (m : Str) (h : x.res = .exited m) : andThen x f = ⟨.exited m, x.st, x.tr⟩ := by
  unfold andThen
  rw [h]

theorem andThen_fatal {α β : Type} (x : Comp α) (f : α → St → Comp β)
    (c : Str) (h : x.res = .fatal c) : andThen x f = ⟨.fatal c, x.st, x.tr⟩ := by
  unfold andThen
  rw [h]

/-! Distinctness of the symbolic command strings from fixed ones, read off
from a position inside their constant prefixes. -/

theorem poetryBumpCmd_ne_gitStatus (level : Str) : poetryBumpCmd level ≠ gitStatusCmd := by
  intro h
  have h0 : (poetryBumpCmd level)[0]? = some 'p' := rfl
  rw [h] at h0
  exact absurd h0 (by decide)

theorem gitCommitCmd_ne_gitStatus (v : Str) : gitCommitCmd v ≠ gitStatusCmd := by
  intro h
  have h0 : (gitCommitCmd v)[4]? = some 'c' := rfl
  rw [h] at h0
  exact absurd h0 (by decide)

theorem gitTagCmd_ne_gitStatus (v : Str) : gitTagCmd v ≠ gitStatusCmd := by
  intro h
  have h0 : (gitTagCmd v)[4]? = some 't' := rfl
  rw [h] at h0
  exact absurd h0 (by decide)

theorem ghReleaseCmd_ne_gitStatus (v : Str) : ghReleaseCmd v ≠ gitStatusCmd := by
  intro h
  have h0 : (ghReleaseCmd v)[1]? = some 'h' := rfl
  rw [h] at h0
  exact absurd h0 (by decide)

theorem invalidLevelMsg_ne_dirtyMsg (level : Str) : invalidLevelMsg level ≠ dirtyMsg := by
  intro h
  have h0 : (invalidLevelMsg level)[7]? = some 'I' := rfl
  rw [h] at h0
  exact absurd h0 (by decide)

/-! ### The git-status check never runs when the skip flag is passed -/

theorem notGit_run {cmd : Str} (h : cmd ≠ gitStatusCmd) : notGit (Event.run cmd) :=
  fun hc => h (Event.run.inj hc)

theorem noGit_get_current_version (env : Env) (st : St) :
    TrAll notGit (get_current_version env st) := by
  unfold get_current_version
  refine trAll_andThen (trAll_runChecked env st poetryShortCmd (notGit_run (by decide))) ?_
  intro a s
  exact trAll_of_tr_nil rfl

theorem noGit_bump_version (env : Env) (st : St) (level : Str) :
    TrAll notGit (bump_version env st level) := by
  unfold bump_version
  split
  · exact trAll_of_tr_nil rfl
  · refine trAll_andThen (noGit_get_current_version env st) ?_
    intro a s
    refine trAll_andThen
      (trAll_runChecked env s (poetryBumpCmd level)
        (notGit_run (poetryBumpCmd_ne_gitStatus level))) ?_
    intro b s2
    exact noGit_get_current_version env _

theorem noGit_update_changelog_step (env : Env) (st : St) (version : Str) :
    TrAll notGit (update_changelog_step env st version) := by
  intro e he
  simp only [update_changelog_step] at he
  rcases List.mem_map.mp he with ⟨a, _, rfl⟩
  intro hc
  cases hc

theorem noGit_create_git_tag (env : Env) (st : St) (version : Str) :
    TrAll notGit (create_git_tag env st version) := by
  unfold create_git_tag
  refine trAll_andThen (trAll_runChecked env st gitAddCmd (notGit_run (by decide))) ?_
  intro a s1
  refine trAll_andThen
    (trAll_runChecked env s1 (gitCommitCmd version)
      (notGit_run (gitCommitCmd_ne_gitStatus version))) ?_
  intro b s2
  exact trAll_runChecked env s2 (gitTagCmd version)
    (notGit_run (gitTagCmd_ne_gitStatus version))

theorem noGit_push_to_github (env : Env) (st : St) :
    TrAll notGit (push_to_github env st) := by
  unfold push_to_github
  split
  · exact trAll_of_tr_nil rfl
  · refine trAll_andThen (trAll_runChecked env st gitPushCmd (notGit_run (by decide))) ?_
    intro a s1
    exact trAll_runChecked env s1 gitPushTagsCmd (notGit_run (by decide))

theorem noGit_create_github_release (env : Env) (st : St) (version : Str) :
    TrAll notGit (create_github_release env st version) := by
  unfold create_github_release
  split
  · intro e he
    have he' : e = Event.run whichGhCmd := by simpa using he
    rw [he']
    exact notGit_run (by decide)
  · split
    · intro e he
      have he' : e = Event.run whichGhCmd := by simpa using he
      rw [he']
      exact notGit_run (by decide)
    · refine trAll_andThen ?_ ?_
      · intro e he
        have he' : e = Event.run whichGhCmd := by simpa using he
        rw [he']
        exact notGit_run (by decide)
      · intro a s1
        exact trAll_runChecked env s1 (ghReleaseCmd version)
          (notGit_run (ghReleaseCmd_ne_gitStatus version))

theorem noGit_main_body (env : Env) (st : St) (level : Str) :
    TrAll notGit (main_body env st level true) := by
  unfold main_body
  refine trAll_andThen (trAll_of_tr_nil rfl) ?_
  intro a s1
  refine trAll_andThen (noGit_bump_version env s1 level) ?_
  intro v s2
  refine trAll_andThen (noGit_update_changelog_step env s2 v) ?_
  intro b s3
  refine trAll_andThen (noGit_create_git_tag env s3 v) ?_
  intro c s4
  refine trAll_andThen (noGit_push_to_github env s4) ?_
  intro d s5
  exact noGit_create_github_release env s5 v

theorem script_skip_no_gitstatus (env : Env) (st : St) (level : Str) :
    Event.run gitStatusCmd ∉ (script env st level true).trace := by
  intro hmem
  unfold script at hmem
  by_cases hd : env.hasAurelis ∧ env.hasPyproject
  · rw [if_neg (not_not_intro hd)] at hmem
    by_cases hv : validLevel level
    · rw [if_neg (not_not_intro hv)] at hmem
      exact noGit_main_body env st level (Event.run gitStatusCmd) hmem rfl
    · rw [if_pos hv] at hmem
      cases hmem
  · rw [if_pos hd] at hmem
    cases hmem

/-! ### Which `sys.exit` messages a step can produce -/

theorem exitedIn_andThen {α β : Type} {M : Str → Prop} {x : Comp α}
    {f : α → St → Comp β} (hx : ExitedIn M x) (hf : ∀ a s, ExitedIn M (f a s)) :
    ExitedIn M (andThen x f) := by
  obtain ⟨r, s, t⟩ := x
  cases r with
  | ok a => exact fun m hm => hf a s m hm
  | exited m0 =>
    intro m hm
    have hm' : (StepR.exited m0 : StepR β) = .exited m := hm
    injection hm' with h
    subst h
    exact hx m0 rfl
  | fatal c =>
    intro m hm
    have hm' : (StepR.fatal c : StepR β) = .exited m := hm
    cases hm'

theorem exitedIn_runChecked {M : Str → Prop} (env : Env) (st : St) (cmd : Str) :
    ExitedIn M (runChecked env st cmd) := by
  intro m hm
  unfold runChecked at hm
  split at hm <;> cases hm

theorem main_body_skip_exited (env : Env) (st : St) (level : Str) :
    ExitedIn (fun m => m = invalidLevelMsg level) (main_body env st level true) := by
  unfold main_body
  refine exitedIn_andThen (fun m hm => StepR.noConfusion hm) ?_
  intro a s1
  refine exitedIn_andThen ?_ ?_
  · unfold bump_version
    split
    · intro m hm
      have hm' : (StepR.exited (invalidLevelMsg level) : StepR Str) = .exited m := hm
      injection hm' with h
      exact h.symm
    · refine exitedIn_andThen ?_ ?_
      · unfold get_current_version
        refine exitedIn_andThen (exitedIn_runChecked env _ _) ?_
        exact fun b s2 m hm => StepR.noConfusion hm
      · intro b s2
        refine exitedIn_andThen (exitedIn_runChecked env _ _) ?_
        intro c s3
        unfold get_current_version
        refine exitedIn_andThen (exitedIn_runChecked env _ _) ?_
        exact fun d s4 m hm => StepR.noConfusion hm
  · intro v s2
    refine exitedIn_andThen (fun m hm => StepR.noConfusion hm) ?_
    intro b s3
    refine exitedIn_andThen ?_ ?_
    · unfold create_git_tag
      refine exitedIn_andThen (exitedIn_runChecked env _ _) ?_
      intro c s4
      refine exitedIn_andThen (exitedIn_runChecked env _ _) ?_
      intro d s5
      exact exitedIn_runChecked env _ _
    · intro c s4
      refine exitedIn_andThen ?_ ?_
      · unfold push_to_github
        split
        · exact fun m hm => StepR.noConfusion hm
        · refine exitedIn_andThen (exitedIn_runChecked env _ _) ?_
          intro d s5
          exact exitedIn_runChecked env _ _
      · intro d s5
        unfold create_github_release
        split
        · exact fun m hm => StepR.noConfusion hm
        · split
          · exact fun m hm => StepR.noConfusion hm
          · refine exitedIn_andThen (fun m hm => StepR.noConfusion hm) ?_
            intro e s6
            exact exitedIn_runChecked env _ _

/-! ### Behaviour of the git-clean check on a dirty tree -/

theorem check_git_clean_fatal (env : Env) (st : St)
    (hf : commandFails env gitStatusCmd) :
    check_git_clean env st = ⟨.fatal gitStatusCmd, st, [.run gitStatusCmd]⟩ := by
  unfold check_git_clean runChecked
  simp only [if_pos hf]
  rfl

theorem check_git_clean_dirty (env : Env) (st : St)
    (hok : ¬ commandFails env gitStatusCmd) (hd : pyStrip env.porcelain ≠ []) :
    check_git_clean env st = ⟨.exited dirtyMsg, st, [.run gitStatusCmd]⟩ := by
  unfold check_git_clean runChecked
  simp only [if_neg hok, if_pos hd]
  rfl

theorem main_body_dirty (env : Env) (st : St) (level : Str)
    (hd : pyStrip env.porcelain ≠ []) :
    main_body env st level false = ⟨.exited dirtyMsg, st, [.run gitStatusCmd]⟩ ∨
    main_body env st level false = ⟨.fatal gitStatusCmd, st, [.run gitStatusCmd]⟩ := by
  by_cases hq : commandFails env gitStatusCmd
  · right
    unfold main_body
    rw [check_git_clean_fatal env st hq]
    exact andThen_fatal _ _ _ rfl
  · left
    unfold main_body
    rw [check_git_clean_dirty env st hq hd]
    exact andThen_exited _ _ _ rfl

theorem main_body_noskip_head (env : Env) (st : St) (level : Str) :
    (main_body env st level false).tr.head? = some (.run gitStatusCmd) := by
  have h0 : ∃ t0, (check_git_clean env st).tr = .run gitStatusCmd :: t0 := by
    unfold check_git_clean
    exact andThen_tr_cons _ _ _ [] (runChecked_tr env st gitStatusCmd)
  obtain ⟨t0, h0⟩ := h0
  have h1 : ∃ t1, (main_body env st level false).tr = .run gitStatusCmd :: t1 := by
    unfold main_body
    exact andThen_tr_cons _ _ _ t0 h0
  obtain ⟨t1, h1⟩ := h1
  rw [h1]
  rfl

/-! ### C2: dirty working tree -/

/-- C2 counterexample: with porcelain output `"\n"` — non-empty, so the claim
demands rejection — the script does not exit with an error: it completes the
whole workflow and bumps the version, because the code tests the output only
after stripping whitespace. -/
theorem dirty_tree_counterexample :
    envWsPorcelain.porcelain ≠ [] ∧
    (script envWsPorcelain stOk (str "patch") false).outcome = .completed ∧
    (script envWsPorcelain stOk (str "patch") false).final.version ≠ stOk.version := by
  decide

/-- C2 (amended): without the skip flag, whenever the porcelain output is
non-empty after stripping whitespace, the script does not complete, leaves
the state untouched, and its trace holds at most the git-status probe itself
(so nothing was bumped, written, committed or tagged); with the skip flag the
dirty-tree check is never executed and the script never exits with the
dirty-tree error. -/
theorem dirty_tree_rejected_unless_skipped (env : Env) (st : St) (level : Str) :
    (pyStrip env.porcelain ≠ [] →
      (script env st level false).outcome ≠ .completed ∧
      (script env st level false).final = st ∧
      ((script env st level false).trace = [] ∨
       (script env st level false).trace = [.run gitStatusCmd])) ∧
    (Event.run gitStatusCmd ∉ (script env st level true).trace ∧
     (script env st level true).outcome ≠ .exited dirtyMsg) := by
  constructor
  · intro hd
    unfold script
    by_cases hdir : env.hasAurelis ∧ env.hasPyproject
    · rw [if_neg (not_not_intro hdir)]
      by_cases hv : validLevel level
      · rw [if_neg (not_not_intro hv)]
        rcases main_body_dirty env st level hd with hm | hm
        · rw [hm]
          exact ⟨fun hc => Outcome.noConfusion hc, rfl, Or.inr rfl⟩
        · rw [hm]
          exact ⟨fun hc => Outcome.noConfusion hc, rfl, Or.inr rfl⟩
      · rw [if_pos hv]
        exact ⟨fun hc => Outcome.noConfusion hc, rfl, Or.inl rfl⟩
    · rw [if_pos hdir]
      exact ⟨fun hc => Outcome.noConfusion hc, rfl, Or.inl rfl⟩
  · refine ⟨script_skip_no_gitstatus env st level, ?_⟩
    intro hout
    unfold script at hout
    by_cases hdir : env.hasAurelis ∧ env.hasPyproject
    · rw [if_neg (not_not_intro hdir)] at hout
      by_cases hv : validLevel level
      · rw [if_neg (not_not_intro hv)] at hout
        have hout' : toOutcome (main_body env st level true).res = .exited dirtyMsg := hout
        cases hr : (main_body env st level true).res with
        | ok a =>
          rw [hr] at hout'
          exact Outcome.noConfusion hout'
        | exited m =>
          rw [hr] at hout'
          have hm : (Outcome.exited m) = .exited dirtyMsg := hout'
          injection hm with h1
          have h2 : m = invalidLevelMsg level := main_body_skip_exited env st level m hr
          exact invalidLevelMsg_ne_dirtyMsg level (h2.symm.trans h1)
        | fatal c =>
          rw [hr] at hout'
          exact Outcome.noConfusion hout'
      · rw [if_pos hv] at hout
        cases hout
    · rw [if_pos hdir] at hout
      have hm : (Outcome.exited dirErrMsg) = .exited dirtyMsg := hout
      injection hm with h1
      exact absurd h1 (by decide)

/-- C2 witness: on a genuinely dirty tree without the skip flag the script
stops having at most probed git status; with the skip flag the probe never
runs. -/
theorem dirty_tree_rejected_witness :
    pyStrip envDirty.porcelain ≠ [] ∧
    (script envDirty stOk (str "patch") false).outcome ≠ .completed ∧
    (script envDirty stOk (str "patch") false).final = stOk ∧
    ((script envDirty stOk (str "patch") false).trace = [] ∨
     (script envDirty stOk (str "patch") false).trace = [.run gitStatusCmd]) ∧
    Event.run gitStatusCmd ∉ (script envDirty stOk (str "patch") true).trace ∧
    (script envDirty stOk (str "patch") true).outcome ≠ .exited dirtyMsg := by
  obtain ⟨hA, hB⟩ := dirty_tree_rejected_unless_skipped envDirty stOk (str "patch")
  have hA' := hA (by decide)
  exact ⟨by decide, hA'.1, hA'.2.1, hA'.2.2, hB.1, hB.2⟩

/-! ### C9: directory precondition and the skip flag -/

/-- C9: run outside the expected project root (no `aurelis` entry or no
`pyproject.toml`), the script terminates immediately with the directory error
and an empty trace, for every argument combination; and the optional flag is
exactly the one that skips the precondition check: with it the git-status
probe never runs, without it (on valid arguments in the right directory) the
probe is the very first event. -/
theorem project_root_check (env : Env) (st : St) (level : Str) (skip : Bool) :
    (¬ (env.hasAurelis = true ∧ env.hasPyproject = true) →
      script env st level skip = ⟨.exited dirErrMsg, st, []⟩) ∧
    Event.run gitStatusCmd ∉ (script env st level true).trace ∧
    (validLevel level → env.hasAurelis = true → env.hasPyproject = true →
      (script env st level false).trace.head? = some (.run gitStatusCmd)) := by
  refine ⟨?_, script_skip_no_gitstatus env st level, ?_⟩
  · intro hd
    unfold script
    rw [if_pos hd]
  · intro hv ha hp
    unfold script
    rw [if_neg (not_not_intro ⟨ha, hp⟩), if_neg (not_not_intro hv)]
    exact main_body_noskip_head env st level

/-- C9 witness: outside the project root the script exits with the directory
error and no events; inside it, the skip flag suppresses exactly the
git-status probe that otherwise comes first. -/
theorem project_root_check_witness :
    ¬ (envNoRoot.hasAurelis = true ∧ envNoRoot.hasPyproject = true) ∧
    script envNoRoot stOk (str "patch") false = ⟨.exited dirErrMsg, stOk, []⟩ ∧
    Event.run gitStatusCmd ∉ (script envOk stOk (str "patch") true).trace ∧
    validLevel (str "patch") ∧
    (script envOk stOk (str "patch") false).trace.head? = some (.run gitStatusCmd) := by
  have h1 := project_root_check envNoRoot stOk (str "patch") false
  have h2 := project_root_check envOk stOk (str "patch") false
  exact ⟨by decide, h1.1 (by decide), h2.2.1, by decide,
    h2.2.2 (by decide) (by decide) (by decide)⟩

/-! ### C8: subprocess failures -/

theorem fatalSound_andThen {α β : Type} {env : Env} {x : Comp α}
    {f : α → St → Comp β} (hx : FatalSound env x)
    (hf : ∀ a s, FatalSound env (f a s)) :
    FatalSound env (andThen x f) := by
  obtain ⟨r, s, t⟩ := x
  cases r with
  | ok a =>
    intro cmd hne hmem hfail
    simp only [andThen, List.mem_append] at hmem
    rcases hmem with hm | hm
    · exact StepR.noConfusion (hx cmd hne hm hfail)
    · exact hf a s cmd hne hm hfail
  | exited m =>
    intro cmd hne hmem hfail
    exact StepR.noConfusion (hx cmd hne hmem hfail)
  | fatal c =>
    intro cmd hne hmem hfail
    have h1 : (StepR.fatal c : StepR α) = .fatal cmd := hx cmd hne hmem hfail
    injection h1 with h2
    show (StepR.fatal c : StepR β) = .fatal cmd
    rw [h2]

theorem fatalSound_of_tr_nil {α : Type} {env : Env} {x : Comp α}
    (h : x.tr = []) : FatalSound env x := by
  intro cmd _ hmem _
  rw [h] at hmem
  cases hmem

theorem fatalSound_of_tr_whichGh {α : Type} {env : Env} {x : Comp α}
    (h : x.tr = [Event.run whichGhCmd]) : FatalSound env x := by
  intro cmd hne hmem _
  rw [h] at hmem
  have hm : Event.run cmd = Event.run whichGhCmd := by simpa using hmem
  exact absurd (Event.run.inj hm) hne

theorem fatalSound_runChecked (env : Env) (st : St) (cmd : Str) :
    FatalSound env (runChecked env st cmd) := by
  intro c hne hmem hfail
  unfold runChecked at hmem ⊢
  by_cases hc : commandFails env cmd
  · simp only [if_pos hc] at hmem ⊢
    have he : c = cmd := Event.run.inj (by simpa using hmem)
    rw [he]
  · simp only [if_neg hc] at hmem ⊢
    have he : c = cmd := Event.run.inj (by simpa using hmem)
    rw [he] at hfail
    exact absurd hfail hc

theorem fatalSound_update_changelog_step (env : Env) (st : St) (version : Str) :
    FatalSound env (update_changelog_step env st version) := by
  intro cmd _ hmem _
  simp only [update_changelog_step] at hmem
  rcases List.mem_map.mp hmem with ⟨a, _, ha⟩
  exact Event.noConfusion ha

theorem fatalSound_get_current_version (env : Env) (st : St) :
    FatalSound env (get_current_version env st) := by
  unfold get_current_version
  exact fatalSound_andThen (fatalSound_runChecked env st poetryShortCmd)
    (fun a s => fatalSound_of_tr_nil rfl)

theorem fatalSound_bump_version (env : Env) (st : St) (level : Str) :
    FatalSound env (bump_version env st level) := by
  unfold bump_version
  split
  · exact fatalSound_of_tr_nil rfl
  · refine fatalSound_andThen (fatalSound_get_current_version env st) ?_
    intro a s
    refine fatalSound_andThen (fatalSound_runChecked env s (poetryBumpCmd level)) ?_
    intro b s2
    exact fatalSound_get_current_version env _

theorem fatalSound_check_git_clean (env : Env) (st : St) :
    FatalSound env (check_git_clean env st) := by
  unfold check_git_clean
  refine fatalSound_andThen (fatalSound_runChecked env st gitStatusCmd) ?_
  intro a s
  split
  · exact fatalSound_of_tr_nil rfl
  · exact fatalSound_of_tr_nil rfl

theorem fatalSound_create_git_tag (env : Env) (st : St) (version : Str) :
    FatalSound env (create_git_tag env st version) := by
  unfold create_git_tag
  refine fatalSound_andThen (fatalSound_runChecked env st gitAddCmd) ?_
  intro a s1
  refine fatalSound_andThen (fatalSound_runChecked env s1 (gitCommitCmd version)) ?_
  intro b s2
  exact fatalSound_runChecked env s2 (gitTagCmd version)

theorem fatalSound_push_to_github (env : Env) (st : St) :
    FatalSound env (push_to_github env st) := by
  unfold push_to_github
  split
  · exact fatalSound_of_tr_nil rfl
  · refine fatalSound_andThen (fatalSound_runChecked env st gitPushCmd) ?_
    intro a s1
    exact fatalSound_runChecked env s1 gitPushTagsCmd

theorem fatalSound_create_github_release (env : Env) (st : St) (version : Str) :
    FatalSound env (create_github_release env st version) := by
  unfold create_github_release
  split
  · exact fatalSound_of_tr_whichGh rfl
  · split
    · exact fatalSound_of_tr_whichGh rfl
    · exact fatalSound_andThen (fatalSound_of_tr_whichGh rfl)
        (fun a s => fatalSound_runChecked env s (ghReleaseCmd version))

theorem fatalSound_main_body (env : Env) (st : St) (level : Str) (skip : Bool) :
    FatalSound env (main_body env st level skip) := by
  unfold main_body
  refine fatalSound_andThen ?_ ?_
  · cases skip with
    | false => exact fatalSound_check_git_clean env st
    | true => exact fatalSound_of_tr_nil rfl
  · intro a s1
    refine fatalSound_andThen (fatalSound_bump_version env s1 level) ?_
    intro v s2
    refine fatalSound_andThen (fatalSound_update_changelog_step env s2 v) ?_
    intro b s3
    refine fatalSound_andThen (fatalSound_create_git_tag env s3 v) ?_
    intro c s4
    refine fatalSound_andThen (fatalSound_push_to_github env s4) ?_
    intro d s5
    exact fatalSound_create_github_release env s5 v

/-- C8 counterexample: the `which gh` probe is an external command the script
invokes; here it exits non-zero, yet the process does not abort — it skips
release creation and completes normally. -/
theorem subprocess_failure_counterexample :
    Event.run whichGhCmd ∈ (script envGhMissing stOk (str "patch") false).trace ∧
    commandFails envGhMissing whichGhCmd ∧
    (script envGhMissing stOk (str "patch") false).outcome = .completed := by
  decide

/-- C8 (amended): for every external command the script invokes in checked
mode — that is, every command except the `which gh` availability probe — a
non-zero exit status makes the whole run end as an uncaught subprocess error
for that very command: no retry, no recovery. -/
theorem checked_subprocess_failure_fatal (env : Env) (st : St) (level : Str)
    (skip : Bool) (cmd : Str) (hne : cmd ≠ whichGhCmd)
    (hmem : Event.run cmd ∈ (script env st level skip).trace)
    (hfail : commandFails env cmd) :
    (script env st level skip).outcome = .fatal cmd := by
  unfold script at hmem ⊢
  by_cases hdir : env.hasAurelis ∧ env.hasPyproject
  · rw [if_neg (not_not_intro hdir)] at hmem ⊢
    by_cases hv : validLevel level
    · rw [if_neg (not_not_intro hv)] at hmem ⊢
      have hres := fatalSound_main_body env st level skip cmd hne hmem hfail
      show toOutcome (main_body env st level skip).res = .fatal cmd
      rw [hres]
      rfl
    · rw [if_pos hv] at hmem
      cases hmem
  · rw [if_pos hdir] at hmem
    cases hmem

/-- C8 witness: a failing checked command (the git-status probe) aborts the
whole run as an uncaught error for that command. -/
theorem checked_subprocess_failure_witness :
    gitStatusCmd ≠ whichGhCmd ∧
    Event.run gitStatusCmd ∈ (script envGitFail stOk (str "patch") false).trace ∧
    commandFails envGitFail gitStatusCmd ∧
    (script envGitFail stOk (str "patch") false).outcome = .fatal gitStatusCmd := by
  refine ⟨by decide, by decide, by decide, ?_⟩
  exact checked_subprocess_failure_fatal envGitFail stOk (str "patch") false gitStatusCmd
    (by decide) (by decide) (by decide)

end Release
